import Mathlib

/-!
Verification of the tablet storage-and-replication core of this repository
(`src/tablet/tablet_impl.h`, client test `TtlCreateTest`).

The header declares the tablet surface (Put/Get/Scan/Count, GcTable,
AppendEntries, MakeSnapshotInternal, LoadTableInternal, AddOPTask/FindTask,
...) and gives the full inline implementation of `SpCache`.  The `SpCache`
functions are embedded directly from that source; the bodies of the other
tablet operations are not part of this tree, so they are modelled from the
specification (each such definition carries a `Modelled from the spec:` doc
comment) and checked against the behaviour the repository's own tests pin
down (`TtlCreateTest`).
-/

namespace Spec2Proof

/-! ## Data model: TTL types, records, chains -/

/-- Modelled from the spec: the TTL policy kinds carried by an index
(`kAbsoluteTime`, `kLatestTime`, or the combined policy requiring both
bounds to be violated before eviction). -/
inductive TTLType where
  | kAbsoluteTime
  | kLatestTime
  | kAbsAndLat
deriving DecidableEq, Repr

/-- Modelled from the spec: a stored record — key, timestamp, a per-table
insertion sequence number (the stable tie-break for duplicate timestamps),
a value payload, and a tombstone mark set by Delete. -/
structure DataRecord where
  key : String
  ts : Nat
  seq : Nat
  value : String
  tombstone : Bool
deriving DecidableEq, Repr

/-- The live (non-tombstoned) records of a chain, in chain order. -/
def liveChain (c : List DataRecord) : List DataRecord :=
  c.filter (fun r => !r.tombstone)

/-- Modelled from the spec: a key's records form a time-descending chain
with insertion order as tie-break, so a new record is inserted in front of
every record whose timestamp is not larger. -/
def insertRecord (r : DataRecord) : List DataRecord → List DataRecord
  | [] => [r]
  | x :: xs => if r.ts < x.ts then x :: insertRecord r xs else r :: x :: xs

/-- A chain is sorted: timestamps are non-increasing from head to tail. -/
def ChainSorted (c : List DataRecord) : Prop :=
  c.Pairwise (fun a b => b.ts ≤ a.ts)

instance : DecidablePred ChainSorted := fun c =>
  inferInstanceAs (Decidable (c.Pairwise _))

/-! ## TTL bounds and visibility -/

/-- Modelled from the spec: the absolute-time bound is violated when the
record is older than `now − ttl`; a ttl of 0 disables the bound. -/
def absViolated (now ttl : Nat) (r : DataRecord) : Bool :=
  ttl != 0 && r.ts + ttl < now

/-- Modelled from the spec: a record is within the latest-count bound when
it is among the `n` most recent live records of its key's chain; a count of
0 disables the bound. -/
def inLatestN (n : Nat) (c : List DataRecord) (r : DataRecord) : Bool :=
  n == 0 || decide (r ∈ (liveChain c).take n)

/-- Modelled from the spec: the uniform TTL visibility predicate used by
Get/Scan/Count — a record is visible iff it satisfies the index's TTL
predicate; for the combined policy, iff it is within the count bound *and*
within the time window.  Tombstoned records are never visible. -/
def ttlVisible (now ttl n : Nat) (tt : TTLType) (c : List DataRecord)
    (r : DataRecord) : Bool :=
  !r.tombstone &&
    match tt with
    | .kAbsoluteTime => !absViolated now ttl r
    | .kLatestTime => inLatestN n c r
    | .kAbsAndLat => !absViolated now ttl r && inLatestN n c r

/-- Scan of one key's chain: the TTL-visible records in chain order. -/
def scanChain (now ttl n : Nat) (tt : TTLType) (c : List DataRecord) :
    List DataRecord :=
  c.filter (ttlVisible now ttl n tt c)

/-- `CountIndex` on one chain: the number of TTL-visible records. -/
def countChain (now ttl n : Nat) (tt : TTLType) (c : List DataRecord) : Nat :=
  (scanChain now ttl n tt c).length

/-! ## Garbage collection -/

/-- Modelled from the spec: latest-count GC walk — keep the `n` most recent
live records (tombstones do not occupy a retention slot) and remove every
live record beyond that rank, tail-first. -/
def keepLatest : Nat → List DataRecord → List DataRecord
  | _, [] => []
  | n, r :: rest =>
    if r.tombstone then r :: keepLatest n rest
    else
      match n with
      | 0 => keepLatest 0 rest
      | Nat.succ m => r :: keepLatest m rest

/-- Modelled from the spec: `kLatestTime` GC; retention 0 disables the
bound entirely, so the cycle removes nothing. -/
def gcLatest (n : Nat) (c : List DataRecord) : List DataRecord :=
  if n = 0 then c else keepLatest n c

/-- Modelled from the spec: `kAbsoluteTime` GC removes exactly the records
older than `now − ttl` (ttl 0 disables the bound). -/
def gcAbsolute (now ttl : Nat) (c : List DataRecord) : List DataRecord :=
  c.filter (fun r => !absViolated now ttl r)

/-- Modelled from the spec: combined-policy GC removes a record only when
both bounds are violated — it is older than `now − ttl` *and* ranks beyond
the `n` most recent for its key. -/
def gcCombined (now ttl n : Nat) (c : List DataRecord) : List DataRecord :=
  c.filter (fun r => !(absViolated now ttl r && !inLatestN n c r))

/-- Modelled from the spec: one GC cycle on one chain, dispatching on the
index's TTL policy (the per-chain work of `TabletImpl::GcTable`). -/
def gcChain (now ttl n : Nat) : TTLType → List DataRecord → List DataRecord
  | .kAbsoluteTime, c => gcAbsolute now ttl c
  | .kLatestTime, c => gcLatest n c
  | .kAbsAndLat, c => gcCombined now ttl n c

/-! ## Table state: Put, Scan, GC over all keys -/

/-- Modelled from the spec: a shard's in-memory table — per-key chains plus
the next insertion sequence number. -/
structure MemTable where
  chains : List (String × List DataRecord)
  nextSeq : Nat
deriving DecidableEq, Repr

def MemTable.empty : MemTable := ⟨[], 0⟩

/-- The chain stored for a key (empty when the key is absent). -/
def getChain (t : MemTable) (k : String) : List DataRecord :=
  match t.chains.find? (fun p => p.1 == k) with
  | some p => p.2
  | none => []

def setChain : List (String × List DataRecord) → String → List DataRecord →
    List (String × List DataRecord)
  | [], k, c => [(k, c)]
  | (k', c') :: rest, k, c =>
    if k' == k then (k, c) :: rest else (k', c') :: setChain rest k c

/-- Modelled from the spec: `Put(key, ts, value)` inserts a fresh live
record into the key's chain, preserving time-descending order with
insertion order as tie-break. -/
def MemTable.put (t : MemTable) (k : String) (ts : Nat) (v : String) :
    MemTable :=
  let r : DataRecord := ⟨k, ts, t.nextSeq, v, false⟩
  ⟨setChain t.chains k (insertRecord r (getChain t k)), t.nextSeq + 1⟩

/-- Modelled from the spec: one GC cycle over every key of the table. -/
def gcTable (now ttl n : Nat) (tt : TTLType) (t : MemTable) : MemTable :=
  ⟨t.chains.map (fun p => (p.1, gcChain now ttl n tt p.2)), t.nextSeq⟩

/-- Scan of one key of the table under the index's TTL policy. -/
def scanTable (now ttl n : Nat) (tt : TTLType) (t : MemTable) (k : String) :
    List DataRecord :=
  scanChain now ttl n tt (getChain t k)

/-! ## CreateTable TTL validation -/

/-- Modelled from the spec and `TtlCreateTest`: the TTL check performed by
`CreateTable`/`CheckTableMeta` — negative TTL values are invalid input, and
a `kLatestTime` retention above 1000 is rejected (the test accepts 0, 1 and
1000 and rejects −1 and 1001, one- and multi-dimensional alike). -/
def checkTTL (tt : TTLType) (ttl : Int) : Bool :=
  if ttl < 0 then false
  else
    match tt with
    | .kLatestTime => decide (ttl ≤ 1000)
    | _ => true

/-- Modelled from the spec: `CreateTable` against the registry of existing
table ids — on an invalid TTL it fails synchronously and the registry is
unchanged (no table is created); otherwise the table id is registered.
The schema (one- or multi-dimensional column list) does not influence the
TTL check. -/
def createTable (tables : List Nat) (tid : Nat) (tt : TTLType) (ttl : Int)
    (_schema : List String) : Bool × List Nat :=
  if checkTTL tt ttl then (true, tid :: tables) else (false, tables)

/-! ## Log replication: follower AppendEntries -/

/-- A replicated log entry: offset, leadership term, and the Put it
carries. -/
structure LogEntry where
  offset : Nat
  term : Nat
  key : String
  ts : Nat
  value : String
deriving DecidableEq, Repr

/-- Modelled from the spec: a follower's replication state — current term,
applied offset, and the entries applied so far in application order. -/
structure FollowerState where
  term : Nat
  appliedOffset : Nat
  applied : List LogEntry
deriving DecidableEq, Repr

/-- An AppendEntries request: the leader's term, the entries batch, and the
leader's committed offset at the time of the request. -/
structure AppendRequest where
  term : Nat
  entries : List LogEntry
  leaderCommitted : Nat
deriving DecidableEq, Repr

/-- Outcome of AppendEntries on a follower. -/
inductive AppendResult where
  | accepted (s : FollowerState)
  | rejectedStaleTerm
  | rejectedGap
deriving DecidableEq, Repr

/-- `offsetsOk o l` holds when the batch `l` consists of consecutive
offsets `o+1, o+2, …` — exactly the strict in-order continuation above the
follower's applied offset. -/
def offsetsOk : Nat → List LogEntry → Bool
  | _, [] => true
  | o, e :: rest => e.offset == o + 1 && offsetsOk (o + 1) rest

/-- Modelled from the spec: follower-side `AppendEntries` — a batch with a
stale term is rejected; a batch that does not continue exactly at the
applied offset (a gap, or a replay below it) is rejected, never silently
skipped; otherwise the entries are applied in order and the applied offset
advances by the batch length. -/
def appendEntries (s : FollowerState) (req : AppendRequest) : AppendResult :=
  if req.term < s.term then .rejectedStaleTerm
  else if offsetsOk s.appliedOffset req.entries then
    .accepted ⟨max s.term req.term, s.appliedOffset + req.entries.length,
               s.applied ++ req.entries⟩
  else .rejectedGap

/-- The consecutive offsets `s+1, …, s+n`. -/
def offsetsFrom : Nat → Nat → List Nat
  | _, 0 => []
  | s, n + 1 => (s + 1) :: offsetsFrom (s + 1) n

/-- Follower well-formedness: the applied entries carry exactly the offsets
`1, …, appliedOffset`, in order. -/
def FollowerInv (s : FollowerState) : Prop :=
  s.applied.map (fun e => e.offset) = offsetsFrom 0 s.appliedOffset

instance : DecidablePred FollowerInv := fun s =>
  inferInstanceAs
    (Decidable (s.applied.map (fun e => e.offset) = offsetsFrom 0 s.appliedOffset))

/-! ## Binlog, snapshot offset, recovery -/

/-- A Put mutation as recorded in the binlog. -/
structure PutOp where
  key : String
  ts : Nat
  value : String
deriving DecidableEq, Repr

def applyPut (t : MemTable) (p : PutOp) : MemTable :=
  t.put p.key p.ts p.value

/-- The table state obtained by applying a Put sequence directly. -/
def applyPuts (t : MemTable) (ps : List PutOp) : MemTable :=
  ps.foldl applyPut t

/-- A binlog entry: the offset assigned by the replicator and the Put. -/
structure BinlogEntry where
  offset : Nat
  op : PutOp
deriving DecidableEq, Repr

/-- The binlog built from a Put sequence with offsets starting above `o`
(entry `i` of the tail gets offset `o + i + 1`). -/
def buildLogFrom : Nat → List PutOp → List BinlogEntry
  | _, [] => []
  | o, p :: ps => ⟨o + 1, p⟩ :: buildLogFrom (o + 1) ps

/-- The full binlog of a Put sequence, offsets `1, …, n`. -/
def buildLog (ps : List PutOp) : List BinlogEntry :=
  buildLogFrom 0 ps

/-- Modelled from the spec: log replay strictly from offset `o+1` forward,
in log order — an entry that does not continue consecutively is a gap and
recovery fails (`none`) rather than producing a divergent state. -/
def replayFrom (o : Nat) (t : MemTable) : List BinlogEntry → Option MemTable
  | [] => some t
  | e :: rest =>
    if e.offset = o + 1 then replayFrom e.offset (applyPut t e.op) rest
    else none

/-- Modelled from the spec: `LoadTableInternal` recovery — rebuild the
table from the newest snapshot (recorded offset `o`, i.e. the state after
the first `o` Puts) and replay the binlog strictly from `o+1` to the
tail. -/
def recoverTable (ps : List PutOp) (o : Nat) : Option MemTable :=
  replayFrom o (applyPuts MemTable.empty (ps.take o)) ((buildLog ps).drop o)

/-! ## Snapshot manifest atomicity -/

/-- A snapshot manifest: offset, term, and the data file set. -/
structure Manifest where
  offset : Nat
  term : Nat
  files : List String
deriving DecidableEq, Repr

/-- The on-disk snapshot directory for one shard: the visible `MANIFEST`
file (always complete when present) and the temp file being written (the
flag records whether it is fully written yet). -/
structure SnapshotDir where
  manifest : Option Manifest
  temp : Option (Manifest × Bool)
deriving DecidableEq, Repr

/-- Modelled from the spec: the observable on-disk states of
`MakeSnapshotInternal`'s manifest write, temp file plus rename — after `k`
micro-steps the directory holds: 0 nothing yet; 1 a partially-written temp;
2 a fully-written temp; 3 (the atomic rename) the new manifest with the
temp gone.  A crash at step `k` leaves exactly `manifestWriteState d m k`. -/
def manifestWriteState (d : SnapshotDir) (m : Manifest) : Nat → SnapshotDir
  | 0 => d
  | 1 => { d with temp := some (m, false) }
  | 2 => { d with temp := some (m, true) }
  | _ + 3 => { manifest := some m, temp := none }

/-- `GetManifest` (and recovery) read only the visible manifest file, never
the temp file. -/
def getManifest (d : SnapshotDir) : Option Manifest :=
  d.manifest

/-! ## Task tracker -/

inductive TaskStatus where
  | kInited
  | kDoing
  | kDone
  | kFailed
  | kCanceled
deriving DecidableEq, Repr

/-- A tracked task: operation id, task type (numeric as in the proto), and
lifecycle status. -/
structure TaskInfo where
  op_id : Nat
  task_type : Nat
  status : TaskStatus
deriving DecidableEq, Repr

/-- A task is non-terminal while it has not reached Done/Failed/Canceled. -/
def nonTerminal : TaskStatus → Bool
  | .kInited => true
  | .kDoing => true
  | _ => false

/-- The tracker's `task_map_`: operation id → tasks of that operation. -/
def TaskMap := List (Nat × List TaskInfo)
deriving DecidableEq, Repr

/-- The task list recorded for an operation id. -/
def taskList : TaskMap → Nat → List TaskInfo
  | [], _ => []
  | (k, l) :: rest, op => if k = op then l else taskList rest op

/-- Append a task under an operation id (creating the entry if absent). -/
def taskAppend : TaskMap → Nat → TaskInfo → TaskMap
  | [], op, t => [(op, [t])]
  | (k, l) :: rest, op, t =>
    if k = op then (k, l ++ [t]) :: rest else (k, l) :: taskAppend rest op t

/-- Modelled from the spec: `FindTask` resolves by (operation id, task
type) among that operation's tasks, matching only non-terminal tasks. -/
def findTask (tm : TaskMap) (op : Nat) (tt : Nat) : Option TaskInfo :=
  (taskList tm op).find? (fun t => t.task_type == tt && nonTerminal t.status)

/-- Modelled from the spec: `AddOPTask` — re-issuing a creation request
against an existing non-terminal (operation id, task type) task returns
the existing TaskInfo and leaves the map unchanged; otherwise a fresh task
is inserted in the Doing state. -/
def addOPTask (tm : TaskMap) (ti : TaskInfo) : TaskInfo × TaskMap :=
  match findTask tm ti.op_id ti.task_type with
  | some t => (t, tm)
  | none =>
    let t : TaskInfo := { ti with status := .kDoing }
    (t, taskAppend tm ti.op_id t)

/-! ## SpCache (embedded from `tablet_impl.h`) -/

/-- `SQLProcedureCacheEntry`: the three `shared_ptr` fields of the cache
entry; a null pointer is `none`, a present `CompileInfo` is identified by a
number. -/
structure SQLProcedureCacheEntry where
  procedure_info : Option Nat
  request_info : Option Nat
  batch_request_info : Option Nat
deriving DecidableEq, Repr

/-- `fesql::base::Status`: ok, or `kProcedureNotFound` as set by
`SpCache`. -/
inductive StatusCode where
  | kOk
  | kProcedureNotFound
deriving DecidableEq, Repr

structure SpStatus where
  code : StatusCode
  msg : String
deriving DecidableEq, Repr

/-- `db_sp_map_`: db name → (procedure name → cache entry). -/
def SpMap := List (String × List (String × SQLProcedureCacheEntry))
deriving DecidableEq, Repr

/-- `std::map::find`: lookup without modification. -/
def assocFind {α : Type} (m : List (String × α)) (k : String) : Option α :=
  match m.find? (fun p => p.1 == k) with
  | some p => some p.2
  | none => none

/-- `operator[]`: lookup that default-inserts a missing key, returning the
value and the possibly-extended map (used by `ProcedureExist` and
`InsertSQLProcedureCacheEntry`, but not by the Get functions). -/
def assocGetOrInsert {α : Type} (d : α) :
    List (String × α) → String → α × List (String × α)
  | [], k => (d, [(k, d)])
  | (k', v) :: rest, k =>
    if k' == k then (v, (k', v) :: rest)
    else
      let (r, rest') := assocGetOrInsert d rest k
      (r, (k', v) :: rest')

namespace SpCache

/-- The status both Get functions assign on every failure path. -/
def notFoundStatus (db sp : String) : SpStatus :=
  ⟨.kProcedureNotFound,
   "store procedure[" ++ sp ++ "] not found in db[" ++ db ++ "]"⟩

/-- `SpCache::ProcedureExist` (embedded from the source): note it reads the
inner map through `operator[]`, so a missing db gains an empty entry. -/
def ProcedureExist (m : SpMap) (db sp : String) : Bool × SpMap :=
  let (spMapOfDb, m') := assocGetOrInsert [] m db
  ((spMapOfDb.find? (fun p => p.1 == sp)).isSome, m')

/-- `SpCache::GetRequestInfo` (embedded from the source): returns the
request `CompileInfo` when present; on a missing db, missing procedure, or
null `request_info` it returns the null pointer and sets
`kProcedureNotFound`, touching the map only through `find`. -/
def GetRequestInfo (m : SpMap) (db sp : String) (status : SpStatus) :
    Option Nat × SpStatus × SpMap :=
  match assocFind m db with
  | none => (none, notFoundStatus db sp, m)
  | some spMapOfDb =>
    match assocFind spMapOfDb sp with
    | none => (none, notFoundStatus db sp, m)
    | some entry =>
      match entry.request_info with
      | none => (none, notFoundStatus db sp, m)
      | some info => (some info, status, m)

/-- `SpCache::GetBatchRequestInfo` (embedded from the source): same shape
as `GetRequestInfo` over the `batch_request_info` field. -/
def GetBatchRequestInfo (m : SpMap) (db sp : String) (status : SpStatus) :
    Option Nat × SpStatus × SpMap :=
  match assocFind m db with
  | none => (none, notFoundStatus db sp, m)
  | some spMapOfDb =>
    match assocFind spMapOfDb sp with
    | none => (none, notFoundStatus db sp, m)
    | some entry =>
      match entry.batch_request_info with
      | none => (none, notFoundStatus db sp, m)
      | some info => (some info, status, m)

end SpCache

/-! ## Concrete scenario data (Scenarios A and B of the spec) -/

/-- The table of Scenarios A/B: `Put("pk", ts=10, "v1")` then
`Put("pk", ts=30, "v2")`. -/
def scenarioTable : MemTable :=
  (MemTable.empty.put "pk" 10 "v1").put "pk" 30 "v2"

def rec10 : DataRecord := ⟨"pk", 10, 0, "v1", false⟩

def rec30 : DataRecord := ⟨"pk", 30, 1, "v2", false⟩

/-! ## Supporting lemmas -/

theorem liveChain_nil : liveChain [] = [] := rfl

theorem liveChain_cons (r : DataRecord) (c : List DataRecord) :
    liveChain (r :: c) =
      if r.tombstone then liveChain c else r :: liveChain c := by
  cases h : r.tombstone <;> simp [liveChain, h]

theorem liveChain_keepLatest (n : Nat) (c : List DataRecord) :
    liveChain (keepLatest n c) = (liveChain c).take n := by
  induction c generalizing n with
  | nil => simp [keepLatest, liveChain]
  | cons r rest ih =>
    cases hr : r.tombstone with
    | true => simp [keepLatest, hr, liveChain_cons, ih]
    | false =>
      cases n with
      | zero => simp [keepLatest, hr, liveChain_cons, ih]
      | succ m => simp [keepLatest, hr, liveChain_cons, ih]

theorem liveChain_pairwise (c : List DataRecord) (hs : ChainSorted c) :
    (liveChain c).Pairwise (fun a b => b.ts ≤ a.ts) :=
  hs.sublist (List.filter_sublist c)

/-! ## C1: kLatestTime GC invariant -/

/-- **C1.** For an index with TTL policy `kLatestTime` and retention
`N > 0`, after a GC cycle at most `N` live records remain in a key's
chain, and they are exactly the `N` most recent by timestamp (the live
prefix of the time-descending chain; every surviving record's timestamp
dominates every evicted one's); in particular, with `N = 1` and Puts at
ts=10 and ts=30 on key "pk", a scan after GC returns exactly the ts=30
record. -/
theorem gcLatest_retains_n_most_recent (n : Nat) (c : List DataRecord)
    (hn : 0 < n) (hs : ChainSorted c) :
    liveChain (gcLatest n c) = (liveChain c).take n ∧
    (liveChain (gcLatest n c)).length ≤ n ∧
    (∀ r ∈ liveChain (gcLatest n c), ∀ q ∈ (liveChain c).drop n,
        q.ts ≤ r.ts) ∧
    scanTable 0 0 1 .kLatestTime (gcTable 0 0 1 .kLatestTime scenarioTable)
        "pk" = [rec30] := by
  have hne : n ≠ 0 := Nat.pos_iff_ne_zero.mp hn
  have ha : liveChain (gcLatest n c) = (liveChain c).take n := by
    rw [gcLatest, if_neg hne, liveChain_keepLatest]
  refine ⟨ha, ?_, ?_, by decide⟩
  · rw [ha, List.length_take]
    exact Nat.min_le_left _ _
  · intro r hr q hq
    have hp := liveChain_pairwise c hs
    rw [← List.take_append_drop n (liveChain c)] at hp
    have := (List.pairwise_append.mp hp).2.2
    exact this r (ha ▸ hr) q hq

/-- Witness for C1 at `n = 1` and the Scenario A chain. -/
theorem gcLatest_retains_n_most_recent_witness :
    liveChain (gcLatest 1 (getChain scenarioTable "pk")) =
      (liveChain (getChain scenarioTable "pk")).take 1 :=
  (gcLatest_retains_n_most_recent 1 (getChain scenarioTable "pk")
    (by decide) (by decide)).1

/-! ## C5: TTL value 0 disables the bound -/

/-- **C5.** TTL value 0 disables the corresponding bound entirely:
`kLatestTime` GC with retention 0 removes nothing, `kAbsoluteTime` GC with
ttl 0 removes nothing, CreateTable with ttl 0 succeeds under either
policy, and in Scenario B (kLatestTime=0, Puts at ts=10 and ts=30) the
post-GC scan returns both records. -/
theorem ttl_zero_unlimited :
    (∀ c : List DataRecord, gcLatest 0 c = c) ∧
    (∀ (now : Nat) (c : List DataRecord), gcAbsolute now 0 c = c) ∧
    (∀ (tbls : List Nat) (tid : Nat) (schema : List String),
        createTable tbls tid .kLatestTime 0 schema = (true, tid :: tbls) ∧
        createTable tbls tid .kAbsoluteTime 0 schema = (true, tid :: tbls)) ∧
    scanTable 0 0 0 .kLatestTime (gcTable 0 0 0 .kLatestTime scenarioTable)
        "pk" = [rec30, rec10] := by
  refine ⟨fun c => rfl, ?_, ?_, by decide⟩
  · intro now c
    simp [gcAbsolute, absViolated]
  · intro tbls tid schema
    constructor <;> rfl

/-! ## C6: negative TTL rejected at creation -/

/-- **C6.** A CreateTable request whose index carries a negative TTL value
fails synchronously and no table is created: the registry of tables is
returned unchanged. -/
theorem createTable_rejects_negative_ttl (tbls : List Nat) (tid : Nat)
    (tt : TTLType) (ttl : Int) (schema : List String) (h : ttl < 0) :
    createTable tbls tid tt ttl schema = (false, tbls) := by
  have hc : checkTTL tt ttl = false := by
    simp [checkTTL, h]
  rw [createTable, hc]
  rfl

/-- Witness for C6 at ttl = −1. -/
theorem createTable_rejects_negative_ttl_witness :
    createTable [] 7 .kLatestTime (-1) ["card", "amt"] = (false, []) :=
  createTable_rejects_negative_ttl [] 7 .kLatestTime (-1) ["card", "amt"]
    (by decide)

/-! ## C9: kLatestTime retention capped at 1000 -/

/-- **C9.** CreateTable with TTL policy `kLatestTime` enforces an upper
bound of 1000 on the retention value: for every creation request (any
schema, one- or multi-dimensional), ttl values 0, 1 and 1000 succeed while
ttl = 1001 is rejected and no table is created. -/
theorem createTable_latest_upper_bound (tbls : List Nat) (tid : Nat)
    (schema : List String) :
    (createTable tbls tid .kLatestTime 0 schema).1 = true ∧
    (createTable tbls tid .kLatestTime 1 schema).1 = true ∧
    (createTable tbls tid .kLatestTime 1000 schema).1 = true ∧
    createTable tbls tid .kLatestTime 1001 schema = (false, tbls) := by
  refine ⟨rfl, rfl, rfl, ?_⟩
  rfl

/-! ## C7: manifest writes are atomic -/

/-- **C7.** Every snapshot manifest write is atomic via temp file plus
rename: whatever micro-step of `MakeSnapshotInternal`'s manifest write a
crash interrupts, `GetManifest` observes either the complete previous
manifest or the complete new one, never a partial manifest; and once the
write has completed (all three steps done), it observes the new one. -/
theorem manifest_write_atomic (d : SnapshotDir) (m : Manifest) (k : Nat) :
    (getManifest (manifestWriteState d m k) = d.manifest ∨
     getManifest (manifestWriteState d m k) = some m) ∧
    (3 ≤ k → getManifest (manifestWriteState d m k) = some m) := by
  match k with
  | 0 => exact ⟨Or.inl rfl, fun h => absurd h (by decide)⟩
  | 1 => exact ⟨Or.inl rfl, fun h => absurd h (by decide)⟩
  | 2 => exact ⟨Or.inl rfl, fun h => absurd h (by decide)⟩
  | j + 3 => exact ⟨Or.inr rfl, fun _ => rfl⟩

/-- Witness for C7 at a concrete directory, manifest and crash step. -/
theorem manifest_write_atomic_witness :
    3 ≤ 5 ∧
      getManifest
          (manifestWriteState ⟨some ⟨1, 1, ["f0"]⟩, none⟩ ⟨2, 1, ["f1"]⟩ 5) =
        some ⟨2, 1, ["f1"]⟩ :=
  ⟨by decide,
   (manifest_write_atomic ⟨some ⟨1, 1, ["f0"]⟩, none⟩ ⟨2, 1, ["f1"]⟩ 5).2
     (by decide)⟩

/-! ## C2: combined policy — evict on both, hide on either -/

/-- **C2.** Under the combined TTL policy with both bounds configured
nonzero (absolute bound `ttl`, latest-count bound `n`), GC physically
removes a live record iff both bounds are violated — it is older than
`now − ttl` *and* outside the `n` most recent live records of its key —
while Scan (and Count, which counts exactly the scanned records) hides it
as soon as either bound alone is violated. -/
theorem combined_policy_evict_both_hide_either (now ttl n : Nat)
    (c : List DataRecord) (r : DataRecord) (hmem : r ∈ c)
    (hlive : r.tombstone = false) (httl : ttl ≠ 0) (hn : n ≠ 0) :
    (r ∉ gcCombined now ttl n c ↔
      (r.ts + ttl < now ∧ r ∉ (liveChain c).take n)) ∧
    (r ∉ scanChain now ttl n .kAbsAndLat c ↔
      (r.ts + ttl < now ∨ r ∉ (liveChain c).take n)) ∧
    countChain now ttl n .kAbsAndLat c =
      (scanChain now ttl n .kAbsAndLat c).length := by
  have habs : absViolated now ttl r = decide (r.ts + ttl < now) := by
    simp [absViolated, httl]
  have hlat : inLatestN n c r = decide (r ∈ (liveChain c).take n) := by
    simp [inLatestN, hn]
  refine ⟨?_, ?_, rfl⟩
  · rw [gcCombined]
    simp only [List.mem_filter, hmem, true_and, habs, hlat]
    cases hd : decide (r.ts + ttl < now) <;>
      cases he : decide (r ∈ (liveChain c).take n) <;>
        simp_all
  · rw [scanChain]
    simp only [List.mem_filter, hmem, true_and, ttlVisible, hlive, habs, hlat]
    cases hd : decide (r.ts + ttl < now) <;>
      cases he : decide (r ∈ (liveChain c).take n) <;>
        simp_all

/-- Witness for C2: `now = 100`, `ttl = 5`, `n = 1`, a two-record chain;
the older record is both out of the time window and beyond rank 1, so it
is evicted and hidden. -/
theorem combined_policy_evict_both_hide_either_witness :
    rec10 ∉ gcCombined 100 5 1 [rec30, rec10] ↔
      (rec10.ts + 5 < 100 ∧ rec10 ∉ (liveChain [rec30, rec10]).take 1) :=
  (combined_policy_evict_both_hide_either 100 5 1 [rec30, rec10] rec10
    (by decide) (by decide) (by decide) (by decide)).1

/-! ## C8: task creation is idempotent -/

theorem taskList_taskAppend (tm : TaskMap) (op : Nat) (t : TaskInfo) :
    taskList (taskAppend tm op t) op = taskList tm op ++ [t] := by
  induction tm with
  | nil => simp [taskAppend, taskList]
  | cons p rest ih =>
    obtain ⟨k, l⟩ := p
    by_cases hk : k = op
    · simp [taskAppend, taskList, hk]
    · simp [taskAppend, taskList, hk, ih]

theorem find?_append_none {α : Type} (p : α → Bool) (l l' : List α)
    (h : l.find? p = none) : (l ++ l').find? p = l'.find? p := by
  rw [List.find?_append, h, Option.none_or]

/-- **C8.** Task creation is idempotent: when a task with the request's
(operation id, task type) already exists in a non-terminal state,
`AddOPTask` (resolving via `FindTask`) returns the existing `TaskInfo` and
leaves the task map unchanged; moreover the task returned by any
`AddOPTask` is non-terminal, so immediately re-issuing the same creation
request returns that same task and the map stays as it was. -/
theorem addOPTask_idempotent (tm : TaskMap) (ti : TaskInfo) :
    (∀ ex, findTask tm ti.op_id ti.task_type = some ex →
        addOPTask tm ti = (ex, tm)) ∧
    nonTerminal (addOPTask tm ti).1.status = true ∧
    addOPTask (addOPTask tm ti).2 ti =
      ((addOPTask tm ti).1, (addOPTask tm ti).2) := by
  refine ⟨?_, ?_, ?_⟩
  · intro ex hex
    rw [addOPTask, hex]
  · rw [addOPTask]
    cases hf : findTask tm ti.op_id ti.task_type with
    | some t =>
      rw [findTask] at hf
      have hp := List.find?_some hf
      simp only [Bool.and_eq_true] at hp
      exact hp.2
    | none => rfl
  · cases hf : findTask tm ti.op_id ti.task_type with
    | some t =>
      simp [addOPTask, hf]
    | none =>
      have hstep : addOPTask tm ti =
          ({ ti with status := .kDoing },
           taskAppend tm ti.op_id { ti with status := .kDoing }) := by
        rw [addOPTask, hf]
      have hfind2 : findTask (taskAppend tm ti.op_id
            { ti with status := .kDoing }) ti.op_id ti.task_type =
          some { ti with status := .kDoing } := by
        rw [findTask, taskList_taskAppend]
        rw [findTask] at hf
        rw [find?_append_none _ _ _ hf]
        simp [nonTerminal]
      rw [hstep]
      simp only []
      rw [addOPTask, hfind2]

/-- Witness for C8: a map already holding a Doing task for (op 9, type 4);
re-issuing the creation returns it and leaves the map unchanged. -/
theorem addOPTask_idempotent_witness :
    addOPTask [(9, [⟨9, 4, .kDoing⟩])] ⟨9, 4, .kInited⟩ =
      (⟨9, 4, .kDoing⟩, [(9, [⟨9, 4, .kDoing⟩])]) :=
  (addOPTask_idempotent [(9, [⟨9, 4, .kDoing⟩])] ⟨9, 4, .kInited⟩).1
    ⟨9, 4, .kDoing⟩ (by decide)

/-! ## C10: SpCache lookups are total and read-only on failure -/

/-- **C10.** `SpCache::GetRequestInfo` and `GetBatchRequestInfo` always
return with the cache map unchanged, and in each of the three failure
cases — database absent, procedure name absent in it, or the respective
compile-info field null — they return the null pointer and a status whose
code is `kProcedureNotFound`. -/
theorem spcache_get_total_readonly (m : SpMap) (db sp : String)
    (st : SpStatus) :
    (SpCache.GetRequestInfo m db sp st).2.2 = m ∧
    (SpCache.GetBatchRequestInfo m db sp st).2.2 = m ∧
    (SpCache.notFoundStatus db sp).code = .kProcedureNotFound ∧
    (assocFind m db = none →
      SpCache.GetRequestInfo m db sp st =
          (none, SpCache.notFoundStatus db sp, m) ∧
        SpCache.GetBatchRequestInfo m db sp st =
          (none, SpCache.notFoundStatus db sp, m)) ∧
    (∀ spm, assocFind m db = some spm → assocFind spm sp = none →
      SpCache.GetRequestInfo m db sp st =
          (none, SpCache.notFoundStatus db sp, m) ∧
        SpCache.GetBatchRequestInfo m db sp st =
          (none, SpCache.notFoundStatus db sp, m)) ∧
    (∀ spm e, assocFind m db = some spm → assocFind spm sp = some e →
      (e.request_info = none →
        SpCache.GetRequestInfo m db sp st =
          (none, SpCache.notFoundStatus db sp, m)) ∧
      (e.batch_request_info = none →
        SpCache.GetBatchRequestInfo m db sp st =
          (none, SpCache.notFoundStatus db sp, m))) := by
  refine ⟨?_, ?_, rfl, ?_, ?_, ?_⟩
  · rw [SpCache.GetRequestInfo]
    split
    · rfl
    · split
      · rfl
      · split <;> rfl
  · rw [SpCache.GetBatchRequestInfo]
    split
    · rfl
    · split
      · rfl
      · split <;> rfl
  · intro hdb
    rw [SpCache.GetRequestInfo, SpCache.GetBatchRequestInfo, hdb]
    exact ⟨rfl, rfl⟩
  · intro spm hdb hsp
    simp only [SpCache.GetRequestInfo, SpCache.GetBatchRequestInfo, hdb, hsp]
    exact ⟨by trivial, by trivial⟩
  · intro spm e hdb hsp
    constructor
    · intro hri
      simp only [SpCache.GetRequestInfo, hdb, hsp, hri]
    · intro hbri
      simp only [SpCache.GetBatchRequestInfo, hdb, hsp, hbri]

/-- Witness for C10: a cache holding db "db1" with procedure "sp1" whose
compile-info fields are null; lookup of "sp1" fails with
`kProcedureNotFound` and leaves the map unchanged. -/
theorem spcache_get_total_readonly_witness :
    SpCache.GetRequestInfo [("db1", [("sp1", ⟨some 0, none, none⟩)])] "db1"
        "sp1" ⟨.kOk, ""⟩ =
      (none, SpCache.notFoundStatus "db1" "sp1",
       [("db1", [("sp1", ⟨some 0, none, none⟩)])]) :=
  ((spcache_get_total_readonly [("db1", [("sp1", ⟨some 0, none, none⟩)])]
      "db1" "sp1" ⟨.kOk, ""⟩).2.2.2.2.2 [("sp1", ⟨some 0, none, none⟩)]
      ⟨some 0, none, none⟩ (by decide) (by decide)).1 (by decide)

/-! ## C3: follower applies entries in strict offset order -/

theorem offsetsOk_map (l : List LogEntry) :
    ∀ o, offsetsOk o l = true →
      l.map (fun e => e.offset) = offsetsFrom o l.length := by
  induction l with
  | nil => intro o _; rfl
  | cons e rest ih =>
    intro o h
    rw [offsetsOk] at h
    simp only [Bool.and_eq_true, beq_iff_eq] at h
    simp [offsetsFrom, h.1, ih (o + 1) h.2]

theorem offsetsFrom_append (m k o : Nat) :
    offsetsFrom o (m + k) = offsetsFrom o m ++ offsetsFrom (o + m) k := by
  induction m generalizing o with
  | zero => simp [offsetsFrom]
  | succ m ih =>
    have h1 : m + 1 + k = (m + k) + 1 := by omega
    have h2 : o + (m + 1) = (o + 1) + m := by omega
    rw [h1, h2]
    simp only [offsetsFrom]
    rw [ih (o + 1), List.cons_append]

theorem mem_offsetsFrom {x : Nat} :
    ∀ {s n : Nat}, x ∈ offsetsFrom s n → s < x ∧ x ≤ s + n := by
  intro s n
  induction n generalizing s with
  | zero => intro h; simp [offsetsFrom] at h
  | succ n ih =>
    intro h
    rw [offsetsFrom] at h
    rcases List.mem_cons.mp h with h1 | h2
    · omega
    · have := ih h2
      omega

theorem offsetsFrom_nodup : ∀ (s n : Nat), (offsetsFrom s n).Nodup := by
  intro s n
  induction n generalizing s with
  | zero => simp [offsetsFrom]
  | succ n ih =>
    rw [offsetsFrom]
    refine List.nodup_cons.mpr ⟨?_, ih (s + 1)⟩
    intro hmem
    have := mem_offsetsFrom hmem
    omega

theorem mem_offsetsFrom_last : ∀ (n s : Nat), 0 < n → s + n ∈ offsetsFrom s n := by
  intro n
  induction n with
  | zero => intro s h; exact absurd h (by omega)
  | succ m ih =>
    intro s _
    rw [offsetsFrom]
    cases Nat.eq_zero_or_pos m with
    | inl h0 =>
      subst h0
      simp [offsetsFrom]
    | inr hpos =>
      have hm := ih (s + 1) hpos
      have heq : s + (m + 1) = (s + 1) + m := by omega
      rw [heq]
      exact List.mem_cons_of_mem _ hm

/-- **C3.** A follower applies AppendEntries batches only in strictly
increasing offset order: a batch whose first offset leaves a gap above the
follower's applied offset is never accepted, a batch carrying a term lower
than the follower's current term is rejected as stale, and an accepted
batch preserves the follower invariant (the applied entries carry exactly
the offsets `1..appliedOffset`, hence no entry is ever applied twice — the
applied offsets stay duplicate-free) while advancing the applied offset,
which never exceeds the leader's committed offset when the leader only
ships committed entries. -/
theorem appendEntries_strict_order (s : FollowerState) (req : AppendRequest)
    (hinv : FollowerInv s) :
    (∀ e rest, req.entries = e :: rest → s.appliedOffset + 1 < e.offset →
        ∀ s', appendEntries s req ≠ .accepted s') ∧
    (req.term < s.term → appendEntries s req = .rejectedStaleTerm) ∧
    (∀ s', appendEntries s req = .accepted s' →
        FollowerInv s' ∧
        (s'.applied.map (fun e => e.offset)).Nodup ∧
        s.appliedOffset ≤ s'.appliedOffset ∧
        ((∀ e ∈ req.entries, e.offset ≤ req.leaderCommitted) →
          s.appliedOffset ≤ req.leaderCommitted →
          s'.appliedOffset ≤ req.leaderCommitted)) := by
  have hinv0 : s.applied.map (fun e => e.offset) =
      offsetsFrom 0 s.appliedOffset := hinv
  refine ⟨?_, ?_, ?_⟩
  · intro e rest hent hgap s' hacc
    rw [appendEntries] at hacc
    split at hacc
    · cases hacc
    · split at hacc
      · rename_i hok
        rw [hent, offsetsOk] at hok
        simp only [Bool.and_eq_true, beq_iff_eq] at hok
        omega
      · cases hacc
  · intro hterm
    rw [appendEntries, if_pos hterm]
  · intro s' hacc
    rw [appendEntries] at hacc
    split at hacc
    · cases hacc
    · split at hacc
      · rename_i hok
        cases hacc
        have hmap : req.entries.map (fun e => e.offset) =
            offsetsFrom s.appliedOffset req.entries.length :=
          offsetsOk_map req.entries s.appliedOffset hok
        have hinv' : (s.applied ++ req.entries).map (fun e => e.offset) =
            offsetsFrom 0 (s.appliedOffset + req.entries.length) := by
          rw [List.map_append, hinv0, hmap, offsetsFrom_append, Nat.zero_add]
        refine ⟨hinv', ?_, Nat.le_add_right _ _, ?_⟩
        · rw [hinv']
          exact offsetsFrom_nodup _ _
        · intro hle h0
          by_cases hnil : req.entries = []
          · simp [hnil]
            exact h0
          · have hpos : 0 < req.entries.length := List.length_pos.mpr hnil
            have hm := mem_offsetsFrom_last req.entries.length
              s.appliedOffset hpos
            rw [← hmap] at hm
            rcases List.mem_map.mp hm with ⟨e, he, heq⟩
            have := hle e he
            simp only [FollowerState.appliedOffset]
            omega
      · cases hacc

/-- Witness for C3: a follower at applied offset 2 accepting the
single-entry batch at offset 3 from a leader whose committed offset is 3
ends at applied offset 3 ≤ 3. -/
theorem appendEntries_strict_order_witness :
    (⟨1, 3, [⟨1, 1, "k", 5, "a"⟩, ⟨2, 1, "k", 6, "b"⟩, ⟨3, 1, "k", 7, "c"⟩]⟩ :
        FollowerState).appliedOffset ≤ 3 :=
  ((appendEntries_strict_order
      ⟨1, 2, [⟨1, 1, "k", 5, "a"⟩, ⟨2, 1, "k", 6, "b"⟩]⟩
      ⟨1, [⟨3, 1, "k", 7, "c"⟩], 3⟩ (by decide)).2.2
    ⟨1, 3, [⟨1, 1, "k", 5, "a"⟩, ⟨2, 1, "k", 6, "b"⟩, ⟨3, 1, "k", 7, "c"⟩]⟩
    (by decide)).2.2.2 (by decide) (by decide)

/-! ## C4: snapshot + log replay reproduces direct application -/

theorem replayFrom_buildLogFrom (ps : List PutOp) :
    ∀ (o : Nat) (t : MemTable),
      replayFrom o t (buildLogFrom o ps) = some (applyPuts t ps) := by
  induction ps with
  | nil => intro o t; rfl
  | cons p rest ih =>
    intro o t
    rw [buildLogFrom, replayFrom, if_pos rfl]
    exact ih (o + 1) (applyPut t p)

theorem buildLogFrom_drop (ps : List PutOp) :
    ∀ (k j : Nat),
      (buildLogFrom k ps).drop j = buildLogFrom (k + j) (ps.drop j) := by
  induction ps with
  | nil => intro k j; simp [buildLogFrom]
  | cons p rest ih =>
    intro k j
    cases j with
    | zero => simp [buildLogFrom]
    | succ j' =>
      rw [buildLogFrom, List.drop_succ_cons, ih (k + 1) j',
        List.drop_succ_cons]
      have : k + 1 + j' = k + (j' + 1) := by omega
      rw [this]

theorem applyPuts_append (t : MemTable) (a b : List PutOp) :
    applyPuts t (a ++ b) = applyPuts (applyPuts t a) b := by
  rw [applyPuts, applyPuts, applyPuts, List.foldl_append]

/-- **C4.** Recovery refines direct application: for every Put sequence
and every snapshot point `o`, rebuilding from the snapshot at offset `o`
(the state after the first `o` Puts) and replaying the binlog strictly
from `o+1` to the tail yields exactly the state of applying the whole Put
sequence directly; and a replayed log whose head does not continue
consecutively (a gap) makes recovery fail with `none` rather than produce
a divergent state. -/
theorem recovery_refines_direct (ps : List PutOp) (o : Nat) :
    recoverTable ps o = some (applyPuts MemTable.empty ps) ∧
    (∀ (t : MemTable) (o' : Nat) (e : BinlogEntry) (rest : List BinlogEntry),
        e.offset ≠ o' + 1 → replayFrom o' t (e :: rest) = none) := by
  constructor
  · rw [recoverTable, buildLog, buildLogFrom_drop, Nat.zero_add,
      replayFrom_buildLogFrom, ← applyPuts_append, List.take_append_drop]
  · intro t o' e rest h
    rw [replayFrom, if_neg h]

/-- Witness for C4's gap clause: a log whose first entry has offset 2
cannot be replayed from offset 0. -/
theorem recovery_refines_direct_witness :
    replayFrom 0 MemTable.empty [⟨2, ⟨"a", 1, "v"⟩⟩] = none :=
  (recovery_refines_direct [] 0).2 MemTable.empty 0 ⟨2, ⟨"a", 1, "v"⟩⟩ []
    (by decide)

end Spec2Proof
